import Mathlib

/-!
Shallow embedding of the core of the QLDB Node.js driver: the session-pool
driver (`src/QldbDriver.ts`) and the paginated result stream (the repository's
`ResultStream` source file).  Machine numbers are modelled as `Nat`/`Int`,
JavaScript `undefined`/`null` as `Option`, and thrown exceptions as `Except`.
All definitions are executable.
-/

namespace QldbModel

/-- Errors thrown by the driver code (the `errors/Errors.ts` hierarchy,
abstracted): `startTxn` is `StartTransactionError`; `invalidSession` is any
error for which `isInvalidSessionException` returns true; `driverClosed` is
`DriverClosedError`; `poolEmpty` is `SessionPoolEmptyError`, carrying the
value of the `_timeoutMillis` field it is constructed with (line 228);
`other n` stands for any further error (session-creation failures, errors a
retry policy gave up on, user errors, ...). -/
inductive Err where
  | startTxn
  | invalidSession
  | driverClosed
  | poolEmpty (timeoutMillis : Option Nat)
  | other (n : Nat)
deriving DecidableEq, Repr

/-- Line 165: `err instanceof StartTransactionError || isInvalidSessionException(err)`,
the classification used by the `catch` block of `executeLambda`. -/
def isRetryable : Err → Bool
  | .startTxn => true
  | .invalidSession => true
  | _ => false

/-- A `QldbSession` as the driver observes it: `isOpen` is the value of
`isSessionOpen()` (used on line 232) and `transportEnded` records whether
`endSession()` has ended the underlying transport handle (called on line 201).
The body of the `QldbSession` class is not part of `src/QldbDriver.ts`; these
two observations are all the driver file uses. -/
structure QldbSession where
  id : Nat
  isOpen : Bool
  transportEnded : Bool
deriving DecidableEq, Repr

/-- Modelled from the spec: `QldbSession.endSession` (the `QldbSession` class
is not under `src/`) "ends every currently-idle Session's underlying transport
handle"; we record that by setting `transportEnded`. -/
def endSession (s : QldbSession) : QldbSession :=
  { s with transportEnded := true }

/-- The mutable state of a `QldbDriver` (lines 54-62).  `semFree` is the free
permit count inside the `semaphore-async-await` `Semaphore`;
`availablePermits` is the driver's own `_availablePermits` counter (an `Int`,
mirroring a plain JavaScript number); `timeoutMillis` is `_timeoutMillis`,
`none` standing for `undefined`.  JavaScript `Array.push`/`Array.pop` act on
the same end of `_sessionPool`, so the pool is a stack; we keep the head of
the list as its top. -/
structure QldbDriver where
  isClosed : Bool
  maxConcurrentTransactions : Nat
  timeoutMillis : Option Nat
  availablePermits : Int
  semFree : Nat
  sessionPool : List QldbSession
deriving DecidableEq, Repr

/-- The two `RangeError`s the constructor can throw (lines 94-96 and 110-115). -/
inductive CtorErr where
  | rangeNegativePoolLimit
  | rangeExceedsMaxSockets
deriving DecidableEq, Repr

/-- The constructor (lines 80-120).  `agentMaxSockets` is
`qldbClientOptions.httpOptions.agent.maxSockets` when an agent is configured,
`globalAgentMaxSockets` is `globalAgent.maxSockets`; socket counts are
modelled as `Nat`.  Note that `_timeoutMillis` is never assigned anywhere in
the class, so the field stays `undefined` (`none`). -/
def mkDriver (maxConcurrentTransactions : Int) (agentMaxSockets : Option Nat)
    (globalAgentMaxSockets : Nat) : Except CtorErr QldbDriver :=
  if maxConcurrentTransactions < 0 then .error .rangeNegativePoolLimit
  else
    let maxSockets := agentMaxSockets.getD globalAgentMaxSockets
    let mct := if maxConcurrentTransactions = 0 then maxSockets
               else maxConcurrentTransactions.toNat
    if mct > maxSockets then .error .rangeExceedsMaxSockets
    else .ok { isClosed := false, maxConcurrentTransactions := mct,
               timeoutMillis := none,
               availablePermits := (mct : Int), semFree := mct,
               sessionPool := [] }

/-- `getSession` (lines 206-229).  `createResult` is the outcome of
`await this._createSession()` (a suspension point: creation may fail, e.g.
because `Communicator.create` fails or the driver was closed meanwhile).
`Semaphore.tryAcquire` returns false iff no permit is free, else takes one.
The returned state reflects all mutations performed on the path taken. -/
def getSession (st : QldbDriver) (createResult : Except Err QldbSession) :
    Except Err QldbSession × QldbDriver :=
  if st.isClosed then (.error .driverClosed, st)
  else if st.semFree = 0 then (.error (.poolEmpty st.timeoutMillis), st)
  else
    let st1 := { st with
      semFree := st.semFree - 1,
      availablePermits := st.availablePermits - 1 }
    match st1.sessionPool with
    | s :: rest => (.ok s, { st1 with sessionPool := rest })
    | [] =>
      match createResult with
      | .ok s => (.ok s, st1)
      | .error e =>
        (.error e, { st1 with
          semFree := st1.semFree + 1,
          availablePermits := st1.availablePermits + 1 })

/-- `_returnSessionToPool` (lines 231-238): re-queue the session iff
`isSessionOpen()`, then release one semaphore permit and increment
`_availablePermits`. -/
def returnSessionToPool (st : QldbDriver) (s : QldbSession) : QldbDriver :=
  let st1 := if s.isOpen then { st with sessionPool := s :: st.sessionPool } else st
  { st1 with
    semFree := st1.semFree + 1,
    availablePermits := st1.availablePermits + 1 }

/-- `close` (lines 199-204): call `endSession()` on every pooled session and
set `_isClosed = true`.  The pool array itself is not cleared. -/
def close (st : QldbDriver) : QldbDriver :=
  { st with sessionPool := st.sessionPool.map endSession, isClosed := true }

/-- The observable outcome of one iteration of the `while(true)` loop of
`executeLambda` (lines 160-176): either `await this.getSession()` threw, or a
session `s` was acquired and `session.executeLambda(...)` returned a value or
threw. -/
inductive IterOutcome where
  | getSessionFails (e : Err)
  | execOk (s : QldbSession) (v : Nat)
  | execFails (s : QldbSession) (e : Err)
deriving DecidableEq, Repr

/-- `executeLambda`'s loop (lines 157-176), driven by a script of iteration
outcomes.  The local variable `session` is declared once, outside the loop
(line 157), and is never reset, which is why `cur` is threaded unchanged
through iterations whose `getSession` throws.  The `finally` block (lines
169-174) calls `_returnSessionToPool(session)` whenever `session != null`;
all such release calls are appended to `rels` in order.  The result is `none`
when the script runs out while the loop would continue. -/
def executeLambdaLoop :
    List IterOutcome → Option QldbSession → List QldbSession →
      Option (Except Err Nat) × List QldbSession
  | [], _, rels => (none, rels)
  | .getSessionFails e :: rest, cur, rels =>
    let rels1 := rels ++ cur.toList
    if isRetryable e then executeLambdaLoop rest cur rels1
    else (some (.error e), rels1)
  | .execOk s v :: _, _, rels => (some (.ok v), rels ++ [s])
  | .execFails s e :: rest, _, rels =>
    let rels1 := rels ++ [s]
    if isRetryable e then executeLambdaLoop rest (some s) rels1
    else (some (.error e), rels1)

/-- `executeLambda` entry: `session` starts `null` and no release has
happened. -/
def executeLambda (script : List IterOutcome) :
    Option (Except Err Nat) × List QldbSession :=
  executeLambdaLoop script none []

/-- The sessions successfully acquired over a script: one per iteration whose
`getSession` succeeded (exactly the iterations that reach
`session.executeLambda`). -/
def acquiredSessions (script : List IterOutcome) : List QldbSession :=
  script.filterMap fun o =>
    match o with
    | .getSessionFails _ => none
    | .execOk s _ => some s
    | .execFails s _ => some s

/-- Whether an iteration outcome is a failure that the `catch` block absorbs
(`continue`) rather than rethrows. -/
def retryableOutcome : IterOutcome → Bool
  | .getSessionFails e => isRetryable e
  | .execOk _ _ => false
  | .execFails _ e => isRetryable e

/- ---------------------------------------------------------------------- -/
/- The `ResultStream` source file.                                         -/
/- ---------------------------------------------------------------------- -/

/-- One result page (`aws-sdk` `Page`): the `Values` array, each entry's
`IonBinary` decoded to an abstract value id (per the spec, decoding is
injective per blob and side-effect free, so a `Nat` id suffices), and
`NextPageToken` (`none` for absent). -/
structure Page where
  values : List Nat
  nextPageToken : Option Nat
deriving DecidableEq, Repr

/-- A `FetchPageResult`: the page plus the optional per-page reports
`ConsumedIOs.ReadIOs` and `TimingInformation.ProcessingTimeMilliseconds`
(`none` for an omitted report). -/
structure FetchResult where
  page : Page
  consumedIOs : Option Int
  timingInformation : Option Int
deriving DecidableEq, Repr

/-- An `ExecuteStatementResult`: the `FirstPage` plus its optional reports. -/
structure ExecuteStatementResult where
  firstPage : Page
  consumedIOs : Option Int
  timingInformation : Option Int
deriving DecidableEq, Repr

/-- Lines 107-118 together with `IOUsageImpl.accumulateIOUsage` /
`TimingInformationImpl.accumulateTimingInfo` (the `stats` classes are not
under `src/`).  Modelled from the spec: "Starts unset. The first page/attempt
that reports a non-null value initializes the accumulator to that value.
Every subsequent report ... adds into the existing accumulator; an omitted
report contributes zero without resetting the total."  The read-IO block
(lines 107-111) and the timing block (lines 113-118) have this same shape. -/
def accumulateReport : Option Int → Option Int → Option Int
  | none, some r => some r
  | none, none => none
  | some a, r => some (a + r.getD 0)

/-- The mutable fields of a `ResultStream` (lines 35-42).  `destroyed` records
that `this.destroy(e)` ran (line 122, on a failed page fetch). -/
structure ResultStream where
  cachedPage : Page
  shouldPushCachedPage : Bool
  retrieveIndex : Nat
  isPushingData : Bool
  ioUsage : Option Int
  timingInformation : Option Int
  destroyed : Bool
deriving DecidableEq, Repr

/-- The constructor (lines 50-60).  `Result._getIOUsage` /
`Result._getTimingInformation` are not under `src/`; modelled from the spec:
the accumulators start at the execute result's own (possibly absent)
reports. -/
def mkResultStream (r : ExecuteStatementResult) : ResultStream :=
  { cachedPage := r.firstPage, shouldPushCachedPage := true,
    retrieveIndex := 0, isPushingData := false,
    ioUsage := r.consumedIOs, timingInformation := r.timingInformation,
    destroyed := false }

/-- Observable events of a push cycle: `pushValue v accepted` is
`this.push(ionValue)` returning `accepted`; `pushEnd` is `this.push(null)`
(line 139); `fetch t` is a `communicator.fetchPage` call with token `t`
(line 104). -/
inductive Ev where
  | pushValue (v : Nat) (accepted : Bool)
  | pushEnd
  | fetch (token : Nat)
deriving DecidableEq, Repr

/-- Whether an event is a push the consumer refused (`push` returned false). -/
def isRefused : Ev → Bool
  | .pushValue _ false => true
  | _ => false

def evValue : Ev → Option Nat
  | .pushValue v _ => some v
  | _ => none

def evFetch : Ev → Option Nat
  | .fetch t => some t
  | _ => none

def isEnd : Ev → Bool
  | .pushEnd => true
  | _ => false

/-- The values pushed, in order. -/
def valuesOf (evs : List Ev) : List Nat := evs.filterMap evValue

/-- The fetch tokens issued, in order. -/
def fetchesOf (evs : List Ev) : List Nat := evs.filterMap evFetch

/-- How many times `push(null)` happened. -/
def endsOf (evs : List Ev) : Nat := evs.countP isEnd

/-- Result of the `while` drain loop (lines 128-136): the final
`_retrieveIndex`, the push events, the final `canPush`, and the remaining
backpressure oracle. -/
structure Drained where
  idx : Nat
  events : List Ev
  canPush : Bool
  oracle : List Bool
deriving DecidableEq, Repr

/-- The drain loop (lines 128-136), modelled by structural recursion over the
remaining value suffix `values.drop _retrieveIndex` (the loop walks
`_retrieveIndex` up to `values.length`).  The oracle supplies the boolean
each `this.push(ionValue)` returns, one entry per push (`true` when the
oracle is exhausted); a refused push still delivers its value — `false` only
tells the producer to stop. -/
def drainLoop : List Nat → Nat → List Bool → Drained
  | [], i, oracle => ⟨i, [], true, oracle⟩
  | v :: pending, i, oracle =>
    if oracle.headD true then
      let r := drainLoop pending (i + 1) oracle.tail
      ⟨r.idx, .pushValue v true :: r.events, r.canPush, r.oracle⟩
    else ⟨i + 1, [.pushValue v false], false, oracle.tail⟩

/-- Result of one `_pushPageValues` cycle: the stream state after the
`finally` block, the pages the communicator still holds, the remaining
oracle, the events of the cycle, whether the `finally` re-invokes `_read`
(`canPush` true at line 146), and whether `push(null)` ran (line 139). -/
structure Cycle where
  state : ResultStream
  rest : List FetchResult
  oracle : List Bool
  events : List Ev
  resume : Bool
  ended : Bool
deriving DecidableEq, Repr

/-- The drain loop as run by one cycle: over the values of the cached page,
from the current `_retrieveIndex`. -/
def drainOf (st : ResultStream) (oracle : List Bool) : Drained :=
  drainLoop (st.cachedPage.values.drop st.retrieveIndex) st.retrieveIndex
    oracle

/-- Lines 128-149: drain the cached page from `_retrieveIndex`, then either
return on refusal (storing `_shouldPushCachedPage = _retrieveIndex < length`,
line 133), or `push(null)` when no continuation token remains (lines
138-141).  The `finally` (lines 143-149) clears `_isPushingData` and
re-invokes `_read` iff `canPush` is still true.  `fetchEvents` are the events
of the fetch step that preceded the drain in this cycle. -/
def drainAndFinish (st : ResultStream) (rest : List FetchResult)
    (oracle : List Bool) (fetchEvents : List Ev) : Cycle :=
  let vals := st.cachedPage.values
  let r := drainOf st oracle
  if r.canPush then
    match st.cachedPage.nextPageToken with
    | none =>
      ⟨{ st with retrieveIndex := r.idx, isPushingData := false }, rest,
        r.oracle, fetchEvents ++ r.events ++ [.pushEnd], false, true⟩
    | some _ =>
      ⟨{ st with retrieveIndex := r.idx, isPushingData := false }, rest,
        r.oracle, fetchEvents ++ r.events, true, false⟩
  else
    ⟨{ st with
        retrieveIndex := r.idx,
        shouldPushCachedPage := decide (r.idx < vals.length),
        isPushingData := false }, rest, r.oracle,
      fetchEvents ++ r.events, false, false⟩

/-- `_pushPageValues` (lines 96-150).  The communicator is modelled by the
list of `FetchPageResult`s it will return for successive `fetchPage` calls;
an empty list when a token is present stands for `fetchPage` throwing, which
destroys the stream (lines 121-125).  On a successful fetch the two stat
accumulators are merged (lines 107-118) and `_retrieveIndex` reset (line
120) before the drain. -/
def pushPageValues (st : ResultStream) (rest : List FetchResult)
    (oracle : List Bool) : Cycle :=
  if st.shouldPushCachedPage then
    drainAndFinish { st with shouldPushCachedPage := false } rest oracle []
  else
    match st.cachedPage.nextPageToken with
    | some tok =>
      match rest with
      | [] =>
        ⟨{ st with destroyed := true, isPushingData := false }, [], oracle,
          [], false, false⟩
      | fr :: rest1 =>
        drainAndFinish
          { st with
            cachedPage := fr.page,
            ioUsage := accumulateReport st.ioUsage fr.consumedIOs,
            timingInformation :=
              accumulateReport st.timingInformation fr.timingInformation,
            retrieveIndex := 0 } rest1 oracle [.fetch tok]
    | none => drainAndFinish st rest oracle []

/-- The self-resuming chain of push cycles triggered by a single `_read`
request: after a cycle whose `finally` finds `canPush` true, `_read` is
re-invoked (line 147) and, `_isPushingData` having been cleared, starts the
next cycle at once.  `fuel` only bounds the modelled recursion. -/
def readChain : Nat → ResultStream → List FetchResult → List Bool → Cycle
  | 0, st, rest, oracle => ⟨st, rest, oracle, [], false, false⟩
  | fuel + 1, st, rest, oracle =>
    let out := pushPageValues st rest oracle
    if out.resume then
      let out1 := readChain fuel out.state out.rest out.oracle
      ⟨out1.state, out1.rest, out1.oracle, out.events ++ out1.events,
        out1.resume, out.ended || out1.ended⟩
    else out

/-- `_read` (lines 83-89): ignore the request while `_isPushingData` is set;
otherwise set it and start a push-cycle chain. -/
def read (fuel : Nat) (st : ResultStream) (rest : List FetchResult)
    (oracle : List Bool) : Cycle :=
  if st.isPushingData then ⟨st, rest, oracle, [], false, false⟩
  else readChain fuel { st with isPushingData := true } rest oracle

/-- Full consumption: push cycles run (each one triggered by the consumer
reading again, or by the self-resume of the previous cycle) until the stream
ends with `push(null)` or is destroyed.  Returns all events and the final
state. -/
def runStream : Nat → ResultStream → List FetchResult → List Bool →
    List Ev × ResultStream
  | 0, st, _, _ => ([], st)
  | fuel + 1, st, rest, oracle =>
    let out := pushPageValues st rest oracle
    if out.ended || out.state.destroyed then (out.events, out.state)
    else
      let r := runStream fuel out.state out.rest out.oracle
      (out.events ++ r.1, r.2)

/-- Well-formed page supply: the cached page carries a continuation token iff
the communicator has a next page, recursively. -/
def wfb : Page → List FetchResult → Bool
  | p, [] => p.nextPageToken.isNone
  | p, fr :: rest => p.nextPageToken.isSome && wfb fr.page rest

/-- The values not yet emitted: the rest of the cached page, then every
supplied page in order. -/
def pendingValues (st : ResultStream) (rest : List FetchResult) : List Nat :=
  st.cachedPage.values.drop st.retrieveIndex
    ++ (rest.map (fun fr => fr.page.values)).flatten

/-- The continuation tokens that remain to be consumed, in order: one per
page that has a successor. -/
def tokenChain : Page → List FetchResult → List Nat
  | _, [] => []
  | p, fr :: rest => p.nextPageToken.toList ++ tokenChain fr.page rest

/-- Termination measure for the push-cycle machine. -/
def cycleMeasure (st : ResultStream) (rest : List FetchResult) : Nat :=
  (if st.shouldPushCachedPage then 1 else 0)
    + (st.cachedPage.values.length - st.retrieveIndex)
    + (rest.map (fun fr => fr.page.values.length + 1)).sum + 1

/-- Spec-side total of §4.4: the exact arithmetic sum of the per-page
reports, a missing report contributing zero; unset (`none`) iff no page ever
reported. -/
def specTotal (reports : List (Option Int)) : Option Int :=
  if reports.all (fun r => r.isNone) then none
  else some ((reports.map (fun r => r.getD 0)).sum)

/-- True when every refused push is the last event of the list: nothing — in
particular no page fetch — happens after the consumer signals
backpressure. -/
def refusalTerminal : List Ev → Bool
  | [] => true
  | e :: rest => if isRefused e then rest.isEmpty else refusalTerminal rest

/- ---------------------------------------------------------------------- -/
/- Theorems: the session pool and the outer retry loop.                    -/
/- ---------------------------------------------------------------------- -/

/-- Any prefix of iterations that fail with retryable errors is silently
absorbed by the loop; a later successful iteration's value is returned. -/
theorem retryPrefixAbsorbed (pre : List IterOutcome) :
    ∀ (rest : List IterOutcome) (cur : Option QldbSession)
      (rels : List QldbSession) (s : QldbSession) (v : Nat),
      (∀ o ∈ pre, retryableOutcome o = true) →
      (executeLambdaLoop (pre ++ IterOutcome.execOk s v :: rest) cur rels).1
        = some (Except.ok v) := by
  induction pre with
  | nil =>
    intro rest cur rels s v _
    simp [executeLambdaLoop]
  | cons o pre ih =>
    intro rest cur rels s v hpre
    have ho := hpre o (List.mem_cons_self o pre)
    have hpre2 : ∀ x ∈ pre, retryableOutcome x = true :=
      fun x hx => hpre x (List.mem_cons_of_mem o hx)
    cases o with
    | getSessionFails e =>
      simp only [retryableOutcome] at ho
      simpa [executeLambdaLoop, ho] using
        ih rest cur (rels ++ cur.toList) s v hpre2
    | execOk s2 v2 => simp [retryableOutcome] at ho
    | execFails s2 e =>
      simp only [retryableOutcome] at ho
      simpa [executeLambdaLoop, ho] using
        ih rest (some s2) (rels ++ [s2]) s v hpre2

/-- C1: the claim says every successfully acquired session is released
exactly once on every exit path.  The code violates it: `session` is
declared outside the loop (line 157) and never reset, so when iteration 1
acquires `s1` and fails with `StartTransactionError` (released once, loop
continues) and iteration 2's `getSession` then throws (e.g. session creation
fails), the `finally` block sees the stale non-null `session` variable and
releases `s1` a second time.  Here `s1` is acquired once but released
twice. -/
theorem executeLambda_double_release :
    executeLambda
        [IterOutcome.execFails ⟨1, false, false⟩ Err.startTxn,
          IterOutcome.getSessionFails (Err.other 0)]
      = (some (Except.error (Err.other 0)),
          [⟨1, false, false⟩, ⟨1, false, false⟩])
    ∧ (executeLambda
        [IterOutcome.execFails ⟨1, false, false⟩ Err.startTxn,
          IterOutcome.getSessionFails (Err.other 0)]).2.count
        ⟨1, false, false⟩ = 2
    ∧ (acquiredSessions
        [IterOutcome.execFails ⟨1, false, false⟩ Err.startTxn,
          IterOutcome.getSessionFails (Err.other 0)]).count
        ⟨1, false, false⟩ = 1 := by
  refine ⟨rfl, rfl, rfl⟩

/-- C3: failures classified as `StartTransactionError` or invalid-session
are absorbed silently — any number of them is survived and a later success's
value is returned to the caller; a closed (unusable) session is not
re-queued by the release in the `finally` block; and any failure of any
other class propagates to the caller unmodified, whether thrown by
`session.executeLambda` or by `getSession`. -/
theorem executeLambda_error_classification :
    (∀ (pre : List IterOutcome) (rest : List IterOutcome)
        (cur : Option QldbSession) (rels : List QldbSession)
        (s : QldbSession) (v : Nat),
      (∀ o ∈ pre, retryableOutcome o = true) →
      (executeLambdaLoop (pre ++ IterOutcome.execOk s v :: rest) cur rels).1
        = some (Except.ok v))
    ∧ (∀ (e : Err), isRetryable e = false →
        ∀ (rest : List IterOutcome) (cur : Option QldbSession)
          (rels : List QldbSession) (s : QldbSession),
          (executeLambdaLoop (IterOutcome.execFails s e :: rest) cur rels).1
            = some (Except.error e)
          ∧ (executeLambdaLoop
              (IterOutcome.getSessionFails e :: rest) cur rels).1
            = some (Except.error e))
    ∧ (∀ (st : QldbDriver) (s : QldbSession), s.isOpen = false →
        (returnSessionToPool st s).sessionPool = st.sessionPool) := by
  refine ⟨?_, ?_, ?_⟩
  · intro pre rest cur rels s v hpre
    exact retryPrefixAbsorbed pre rest cur rels s v hpre
  · intro e he rest cur rels s
    constructor <;> simp [executeLambdaLoop, he]
  · intro st s hs
    simp [returnSessionToPool, hs]

/-- Witness for C3 at concrete inputs. -/
theorem executeLambda_error_classification_witness :
    (executeLambdaLoop
        ([IterOutcome.getSessionFails Err.invalidSession]
          ++ IterOutcome.execOk ⟨3, true, false⟩ 7 :: []) none []).1
      = some (Except.ok 7)
    ∧ (executeLambdaLoop
        [IterOutcome.execFails ⟨2, false, false⟩ (Err.other 1)] none []).1
      = some (Except.error (Err.other 1))
    ∧ (returnSessionToPool ⟨false, 1, none, 0, 0, []⟩
        ⟨2, false, false⟩).sessionPool = [] := by
  have h := executeLambda_error_classification
  exact ⟨h.1 [IterOutcome.getSessionFails Err.invalidSession] []
      none [] ⟨3, true, false⟩ 7 (by decide),
    (h.2.1 (Err.other 1) (by decide) [] none [] ⟨2, false, false⟩).1,
    h.2.2 ⟨false, 1, none, 0, 0, []⟩ ⟨2, false, false⟩ rfl⟩

/-- C4: `getSession` fails with `DriverClosedError` when the driver is
closed; otherwise, with no free permit, it fails immediately with
`SessionPoolEmptyError` without changing any state; with a permit it
decrements both counters and pops an idle session if one exists, else
returns the freshly created one; and when creation fails the permit is
released — the state, counters included, is exactly restored — before the
creation error propagates. -/
theorem getSession_branches (st : QldbDriver) (cr : Except Err QldbSession) :
    (st.isClosed = true → getSession st cr = (.error .driverClosed, st))
    ∧ (st.isClosed = false → st.semFree = 0 →
        getSession st cr = (.error (.poolEmpty st.timeoutMillis), st))
    ∧ (∀ s rest, st.isClosed = false → st.semFree ≠ 0 →
        st.sessionPool = s :: rest →
        getSession st cr = (.ok s,
          { st with
            sessionPool := rest, semFree := st.semFree - 1,
            availablePermits := st.availablePermits - 1 }))
    ∧ (∀ s, st.isClosed = false → st.semFree ≠ 0 → st.sessionPool = [] →
        cr = .ok s →
        getSession st cr = (.ok s,
          { st with
            semFree := st.semFree - 1,
            availablePermits := st.availablePermits - 1 }))
    ∧ (∀ e, st.isClosed = false → st.semFree ≠ 0 → st.sessionPool = [] →
        cr = .error e → getSession st cr = (.error e, st)) := by
  obtain ⟨c, m, t, a, f, p⟩ := st
  refine ⟨?_, ?_, ?_, ?_, ?_⟩
  · intro h; subst h; simp [getSession]
  · intro h1 h2; subst h1; subst h2; simp [getSession]
  · intro s rest h1 h2 h3; subst h1; subst h3
    simp [getSession, h2]
  · intro s h1 h2 h3 h4; subst h1; subst h3; subst h4
    simp [getSession, h2]
  · intro e h1 h2 h3 h4; subst h1; subst h3; subst h4
    simp only [] at h2
    simp [getSession, h2]
    omega

/-- Witness for C4 at concrete inputs. -/
theorem getSession_branches_witness :
    getSession ⟨false, 1, none, 0, 0, []⟩ (.ok ⟨6, true, false⟩)
      = (.error (.poolEmpty none), ⟨false, 1, none, 0, 0, []⟩)
    ∧ getSession ⟨false, 1, none, 1, 1, []⟩ (.error (.other 3))
      = (.error (.other 3), ⟨false, 1, none, 1, 1, []⟩)
    ∧ getSession ⟨false, 1, none, 1, 1, [⟨4, true, false⟩]⟩
        (.ok ⟨6, true, false⟩)
      = (.ok ⟨4, true, false⟩, ⟨false, 1, none, 0, 0, []⟩) := by
  have h1 := getSession_branches ⟨false, 1, none, 0, 0, []⟩
    (.ok ⟨6, true, false⟩)
  have h2 := getSession_branches ⟨false, 1, none, 1, 1, []⟩
    (.error (.other 3))
  have h3 := getSession_branches ⟨false, 1, none, 1, 1, [⟨4, true, false⟩]⟩
    (.ok ⟨6, true, false⟩)
  refine ⟨h1.2.1 rfl rfl,
    h2.2.2.2.2 (.other 3) rfl (by decide) rfl rfl,
    ?_⟩
  exact h3.2.2.1 ⟨4, true, false⟩ [] rfl (by decide) rfl

/-- C7: `_returnSessionToPool` pushes the session back iff its open flag is
true, discards it otherwise, and in both cases releases exactly one permit
(both counters increase by one); consequently a session whose open flag is
false at release time is absent from the pool afterwards, and `getSession`
can only ever return a session that is in the pool or that the creation step
itself returned — so a discarded session is never handed out again. -/
theorem returnSessionToPool_release (st : QldbDriver) (s : QldbSession) :
    ((returnSessionToPool st s).sessionPool
        = if s.isOpen then s :: st.sessionPool else st.sessionPool)
    ∧ (returnSessionToPool st s).semFree = st.semFree + 1
    ∧ (returnSessionToPool st s).availablePermits = st.availablePermits + 1
    ∧ (s.isOpen = false → s ∉ st.sessionPool →
        s ∉ (returnSessionToPool st s).sessionPool)
    ∧ (∀ (st2 : QldbDriver) (cr : Except Err QldbSession) (s2 : QldbSession)
        (stOut : QldbDriver), s ∉ st2.sessionPool →
        getSession st2 cr = (.ok s2, stOut) → s2 = s → cr = .ok s) := by
  refine ⟨?_, ?_, ?_, ?_, ?_⟩
  · cases h : s.isOpen <;> simp [returnSessionToPool, h]
  · cases h : s.isOpen <;> simp [returnSessionToPool, h]
  · cases h : s.isOpen <;> simp [returnSessionToPool, h]
  · intro h hmem
    simp [returnSessionToPool, h, hmem]
  · intro st2 cr s2 stOut hmem hget hs2
    subst hs2
    by_cases hc : st2.isClosed
    · simp [getSession, hc] at hget
    · by_cases hf : st2.semFree = 0
      · simp [getSession, hc, hf] at hget
      · rcases hp : st2.sessionPool with _ | ⟨s3, rest⟩
        · rcases cr with e | s4
          · simp [getSession, hc, hf, hp] at hget
          · simp [getSession, hc, hf, hp] at hget
            simp [hget.1]
        · simp [getSession, hc, hf, hp] at hget
          exact absurd (hp ▸ List.mem_cons_self s3 rest)
            (hget.1 ▸ hmem)

/-- Witness for C7 at concrete inputs. -/
theorem returnSessionToPool_release_witness :
    (returnSessionToPool ⟨false, 2, none, 1, 1, []⟩ ⟨9, false, false⟩
        ).sessionPool = []
    ∧ (⟨9, false, false⟩ : QldbSession)
        ∉ (returnSessionToPool ⟨false, 2, none, 1, 1, []⟩
            ⟨9, false, false⟩).sessionPool
    ∧ (Except.ok ⟨9, false, false⟩ : Except Err QldbSession)
        = .ok ⟨9, false, false⟩ := by
  have h := returnSessionToPool_release ⟨false, 2, none, 1, 1, []⟩
    ⟨9, false, false⟩
  refine ⟨by simpa using h.1, h.2.2.2.1 rfl (by decide), ?_⟩
  exact h.2.2.2.2 ⟨false, 1, none, 1, 1, []⟩ (.ok ⟨9, false, false⟩)
    ⟨9, false, false⟩ ⟨false, 1, none, 0, 0, []⟩ (by decide) rfl rfl

/-- C8: `close()` marks the driver closed and ends the transport handle of
every currently-idle pooled session (the pool array is kept); afterwards
`getSession` — and hence the first iteration of any `executeLambda` call —
fails immediately with `DriverClosedError`, which is not retryable, so the
call fails with a lifecycle error even while idle sessions remain pooled,
and no release happens (the `session` variable is still null). -/
theorem close_blocks_execute (st : QldbDriver) :
    (close st).isClosed = true
    ∧ (close st).sessionPool = st.sessionPool.map endSession
    ∧ (∀ s ∈ (close st).sessionPool, s.transportEnded = true)
    ∧ (∀ cr, getSession (close st) cr = (.error .driverClosed, close st))
    ∧ (∀ (rest : List IterOutcome) (rels : List QldbSession),
        executeLambdaLoop
            (IterOutcome.getSessionFails Err.driverClosed :: rest) none rels
          = (some (.error Err.driverClosed), rels)) := by
  refine ⟨rfl, rfl, ?_, ?_, ?_⟩
  · intro s hs
    simp only [close] at hs
    obtain ⟨t, _, rfl⟩ := List.mem_map.mp hs
    rfl
  · intro cr
    simp [getSession, close]
  · intro rest rels
    simp [executeLambdaLoop, isRetryable]

/-- Witness for C8 at a concrete input. -/
theorem close_blocks_execute_witness :
    (close ⟨false, 1, none, 1, 1, [⟨1, true, false⟩]⟩).isClosed = true
    ∧ (⟨1, true, true⟩ : QldbSession).transportEnded = true
    ∧ getSession (close ⟨false, 1, none, 1, 1, [⟨1, true, false⟩]⟩)
        (.ok ⟨2, true, false⟩)
      = (.error .driverClosed,
          close ⟨false, 1, none, 1, 1, [⟨1, true, false⟩]⟩)
    ∧ executeLambdaLoop
        [IterOutcome.getSessionFails Err.driverClosed] none []
      = (some (.error Err.driverClosed), []) := by
  have h := close_blocks_execute ⟨false, 1, none, 1, 1, [⟨1, true, false⟩]⟩
  exact ⟨h.1, h.2.2.1 ⟨1, true, true⟩ (by decide),
    h.2.2.2.1 (.ok ⟨2, true, false⟩), h.2.2.2.2 [] []⟩

/-- C9: the claim says the pool-exhausted error carries the configured
acquisition-timeout value.  But the constructor never assigns
`_timeoutMillis` (no constructor parameter sets it, despite the class doc
promising a `timeoutMillis` parameter defaulting to 30000), so the field is
`undefined` (`none`) in every constructed driver, and
`SessionPoolEmptyError` is always built with `undefined`, not a configured
timeout.  Shown on concrete drivers: construction yields `timeoutMillis =
none`, and an exhausted-pool acquisition yields `poolEmpty none`. -/
theorem sessionPoolEmpty_payload_unset :
    mkDriver 1 none 10 = .ok ⟨false, 1, none, 1, 1, []⟩
    ∧ mkDriver 0 (some 3) 10 = .ok ⟨false, 3, none, 3, 3, []⟩
    ∧ (getSession ⟨false, 1, none, 0, 0, []⟩ (.ok ⟨6, true, false⟩)).1
        = .error (.poolEmpty none)
    ∧ (getSession
        (getSession ⟨false, 1, none, 1, 1, []⟩ (.ok ⟨5, true, false⟩)).2
        (.ok ⟨6, true, false⟩)).1
        = .error (.poolEmpty none) := by
  refine ⟨rfl, rfl, rfl, rfl⟩

/-- C10: the constructor rejects, with the pool-limit `RangeError`, exactly
the non-negative `maxConcurrentTransactions` whose effective value (the
agent's `maxSockets` when 0 is given, the given value otherwise) exceeds the
configured agent's `maxSockets`; the negative-value `RangeError` fires
exactly on negative input. -/
theorem mkDriver_pool_limit_range (mct : Int) (ams : Option Nat)
    (gms : Nat) :
    (mkDriver mct ams gms = .error CtorErr.rangeExceedsMaxSockets
      ↔ 0 ≤ mct ∧ ams.getD gms
          < (if mct = 0 then ams.getD gms else mct.toNat))
    ∧ (mkDriver mct ams gms = .error CtorErr.rangeNegativePoolLimit
      ↔ mct < 0) := by
  unfold mkDriver
  dsimp only
  split_ifs <;> simp_all

/-- Witness for C10 at concrete inputs. -/
theorem mkDriver_pool_limit_range_witness :
    mkDriver 5 (some 2) 0 = .error CtorErr.rangeExceedsMaxSockets
    ∧ mkDriver (-1) none 10 = .error CtorErr.rangeNegativePoolLimit := by
  exact ⟨(mkDriver_pool_limit_range 5 (some 2) 0).1.mpr
      ⟨by decide, by decide⟩,
    (mkDriver_pool_limit_range (-1) none 10).2.mpr (by decide)⟩

/- ---------------------------------------------------------------------- -/
/- Theorems: the result stream.                                            -/
/- ---------------------------------------------------------------------- -/

theorem valuesOf_nil : valuesOf [] = [] := rfl

theorem valuesOf_append (a b : List Ev) :
    valuesOf (a ++ b) = valuesOf a ++ valuesOf b :=
  List.filterMap_append a b evValue

theorem fetchesOf_append (a b : List Ev) :
    fetchesOf (a ++ b) = fetchesOf a ++ fetchesOf b :=
  List.filterMap_append a b evFetch

theorem endsOf_append (a b : List Ev) :
    endsOf (a ++ b) = endsOf a + endsOf b :=
  List.countP_append isEnd a b

theorem refusalTerminal_append (a b : List Ev)
    (ha : a.all (fun e => !isRefused e) = true)
    (hb : refusalTerminal b = true) :
    refusalTerminal (a ++ b) = true := by
  induction a with
  | nil => simpa using hb
  | cons e a ih =>
    simp only [List.all_cons, Bool.and_eq_true, Bool.not_eq_true'] at ha
    simpa [refusalTerminal, ha.1] using ih ha.2

theorem refusalTerminal_of_all (a : List Ev)
    (ha : a.all (fun e => !isRefused e) = true) :
    refusalTerminal a = true := by
  have := refusalTerminal_append a [] ha rfl
  simpa using this

/-- Step equation: an accepted push (lines 128-131, `push` returned true)
recurses on the remaining values. -/
theorem drainLoop_cons_accepted (v : Nat) (pending : List Nat) (i : Nat)
    (oracle : List Bool) (h : oracle.headD true = true) :
    drainLoop (v :: pending) i oracle
      = ⟨(drainLoop pending (i + 1) oracle.tail).idx,
          .pushValue v true :: (drainLoop pending (i + 1) oracle.tail).events,
          (drainLoop pending (i + 1) oracle.tail).canPush,
          (drainLoop pending (i + 1) oracle.tail).oracle⟩ := by
  simp [drainLoop, h]
  simpa using h

/-- Step equation: a refused push (lines 132-135) stops the loop. -/
theorem drainLoop_cons_refused (v : Nat) (pending : List Nat) (i : Nat)
    (oracle : List Bool) (h : oracle.headD true = false) :
    drainLoop (v :: pending) i oracle
      = ⟨i + 1, [.pushValue v false], false, oracle.tail⟩ := by
  simp [drainLoop, h]
  simpa using h

/-- Characterization of the drain loop (lines 128-136) needed everywhere:
the index only advances, the pushed values are exactly the consumed prefix
of the pending values, no end signal and no fetch happen here, a fully
drained page means `canPush` stayed true and every push was accepted, and a
refusal stops the loop right after the refused push. -/
theorem drainLoop_spec (pending : List Nat) :
    ∀ (i : Nat) (oracle : List Bool),
    i ≤ (drainLoop pending i oracle).idx
    ∧ (drainLoop pending i oracle).idx ≤ i + pending.length
    ∧ valuesOf (drainLoop pending i oracle).events
        ++ pending.drop ((drainLoop pending i oracle).idx - i) = pending
    ∧ endsOf (drainLoop pending i oracle).events = 0
    ∧ fetchesOf (drainLoop pending i oracle).events = []
    ∧ ((drainLoop pending i oracle).canPush = true →
        (drainLoop pending i oracle).idx = i + pending.length
        ∧ (drainLoop pending i oracle).events.all
            (fun e => !isRefused e) = true)
    ∧ ((drainLoop pending i oracle).canPush = false →
        i < (drainLoop pending i oracle).idx
        ∧ refusalTerminal (drainLoop pending i oracle).events = true) := by
  induction pending with
  | nil =>
    intro i oracle
    simp [drainLoop, valuesOf, endsOf, fetchesOf]
  | cons v pending ih =>
    intro i oracle
    obtain ⟨ih1, ih2, ih3, ih4, ih5, ih6, ih7⟩ := ih (i + 1) oracle.tail
    by_cases h : oracle.headD true = true
    · rw [drainLoop_cons_accepted v pending i oracle h]
      dsimp only
      refine ⟨by omega, by simp only [List.length_cons]; omega,
        ?_, ?_, ?_, ?_, ?_⟩
      · have hidx : (drainLoop pending (i + 1) oracle.tail).idx - i
            = ((drainLoop pending (i + 1) oracle.tail).idx - (i + 1)) + 1 := by
          omega
        rw [hidx]
        simpa [valuesOf, evValue] using ih3
      · simpa [endsOf, List.countP_cons, isEnd] using ih4
      · simpa [fetchesOf, evFetch] using ih5
      · intro hc
        obtain ⟨hA, hB⟩ := ih6 hc
        refine ⟨by simp only [List.length_cons]; omega, ?_⟩
        simpa [isRefused] using hB
      · intro hc
        obtain ⟨hA, hB⟩ := ih7 hc
        refine ⟨by omega, ?_⟩
        simpa [refusalTerminal, isRefused] using hB
    · simp only [Bool.not_eq_true] at h
      rw [drainLoop_cons_refused v pending i oracle h]
      dsimp only
      simp [valuesOf, endsOf, fetchesOf, List.countP_cons, isEnd, evValue,
        evFetch, refusalTerminal, isRefused]

/-- Branch equation: page fully drained, no continuation token — `push(null)`
runs (lines 138-141) and the cycle ends. -/
theorem drainAndFinish_ended (st : ResultStream) (rest : List FetchResult)
    (oracle : List Bool) (fevs : List Ev)
    (hcp : (drainOf st oracle).canPush = true)
    (htok : st.cachedPage.nextPageToken = none) :
    drainAndFinish st rest oracle fevs
      = ⟨{ st with
            retrieveIndex := (drainOf st oracle).idx,
            isPushingData := false }, rest, (drainOf st oracle).oracle,
          fevs ++ (drainOf st oracle).events ++ [.pushEnd], false, true⟩ := by
  unfold drainAndFinish
  simp [hcp, htok]

/-- Branch equation: page fully drained with a continuation token — no null
push; the `finally` re-invokes `_read`. -/
theorem drainAndFinish_resume (st : ResultStream) (rest : List FetchResult)
    (oracle : List Bool) (fevs : List Ev) (tok : Nat)
    (hcp : (drainOf st oracle).canPush = true)
    (htok : st.cachedPage.nextPageToken = some tok) :
    drainAndFinish st rest oracle fevs
      = ⟨{ st with
            retrieveIndex := (drainOf st oracle).idx,
            isPushingData := false }, rest, (drainOf st oracle).oracle,
          fevs ++ (drainOf st oracle).events, true, false⟩ := by
  unfold drainAndFinish
  simp [hcp, htok]

/-- Branch equation: the consumer refused a push — return, remembering
whether the cached page still has values (line 133). -/
theorem drainAndFinish_refused (st : ResultStream) (rest : List FetchResult)
    (oracle : List Bool) (fevs : List Ev)
    (hcp : (drainOf st oracle).canPush = false) :
    drainAndFinish st rest oracle fevs
      = ⟨{ st with
            retrieveIndex := (drainOf st oracle).idx,
            shouldPushCachedPage :=
              decide ((drainOf st oracle).idx < st.cachedPage.values.length),
            isPushingData := false }, rest, (drainOf st oracle).oracle,
          fevs ++ (drainOf st oracle).events, false, false⟩ := by
  unfold drainAndFinish
  simp [hcp]

/-- `drainLoop_spec` re-stated for the drain as one cycle runs it. -/
theorem drainOf_spec (st : ResultStream) (oracle : List Bool) :
    st.retrieveIndex ≤ (drainOf st oracle).idx
    ∧ (drainOf st oracle).idx
        ≤ st.retrieveIndex + (st.cachedPage.values.length - st.retrieveIndex)
    ∧ valuesOf (drainOf st oracle).events
        ++ st.cachedPage.values.drop (drainOf st oracle).idx
      = st.cachedPage.values.drop st.retrieveIndex
    ∧ endsOf (drainOf st oracle).events = 0
    ∧ fetchesOf (drainOf st oracle).events = []
    ∧ ((drainOf st oracle).canPush = true →
        st.cachedPage.values.length ≤ (drainOf st oracle).idx
        ∧ (drainOf st oracle).events.all (fun e => !isRefused e) = true)
    ∧ ((drainOf st oracle).canPush = false →
        st.retrieveIndex < (drainOf st oracle).idx
        ∧ refusalTerminal (drainOf st oracle).events = true) := by
  have hdo : drainOf st oracle
      = drainLoop (st.cachedPage.values.drop st.retrieveIndex)
          st.retrieveIndex oracle := rfl
  obtain ⟨d1, d2, d3, d4, d5, d6, d7⟩ :=
    drainLoop_spec (st.cachedPage.values.drop st.retrieveIndex)
      st.retrieveIndex oracle
  rw [← hdo] at d1 d2 d3 d4 d5 d6 d7
  have hlen : (st.cachedPage.values.drop st.retrieveIndex).length
      = st.cachedPage.values.length - st.retrieveIndex :=
    List.length_drop st.retrieveIndex st.cachedPage.values
  refine ⟨d1, ?_, ?_, d4, d5, ?_, d7⟩
  · rw [hlen] at d2
    exact d2
  · rw [List.drop_drop] at d3
    have h2 : st.retrieveIndex
          + ((drainOf st oracle).idx - st.retrieveIndex)
        = (drainOf st oracle).idx := by
      omega
    rw [h2] at d3
    exact d3
  · intro hc
    obtain ⟨hA, hB⟩ := d6 hc
    rw [hlen] at hA
    exact ⟨by omega, hB⟩

/-- Everything a caller of `drainAndFinish` (the tail of a push cycle,
lines 128-149) needs, for an entry state whose `_shouldPushCachedPage` is
already cleared: page, stats, and supply unchanged; index only advances;
values transfer; fetch events pass through; one null push iff the cycle
ends; invariant and measure facts; end/refusal characterizations. -/
theorem drainAndFinish_spec (st : ResultStream) (rest : List FetchResult)
    (oracle : List Bool) (fevs : List Ev)
    (hflag : st.shouldPushCachedPage = false) :
    (drainAndFinish st rest oracle fevs).rest = rest
    ∧ (drainAndFinish st rest oracle fevs).state.cachedPage = st.cachedPage
    ∧ (drainAndFinish st rest oracle fevs).state.ioUsage = st.ioUsage
    ∧ (drainAndFinish st rest oracle fevs).state.timingInformation
        = st.timingInformation
    ∧ (drainAndFinish st rest oracle fevs).state.destroyed = st.destroyed
    ∧ st.retrieveIndex
        ≤ (drainAndFinish st rest oracle fevs).state.retrieveIndex
    ∧ valuesOf (drainAndFinish st rest oracle fevs).events
        ++ st.cachedPage.values.drop
            (drainAndFinish st rest oracle fevs).state.retrieveIndex
      = valuesOf fevs ++ st.cachedPage.values.drop st.retrieveIndex
    ∧ fetchesOf (drainAndFinish st rest oracle fevs).events = fetchesOf fevs
    ∧ endsOf (drainAndFinish st rest oracle fevs).events
        = endsOf fevs
          + (if (drainAndFinish st rest oracle fevs).ended then 1 else 0)
    ∧ ((drainAndFinish st rest oracle fevs).state.shouldPushCachedPage
          = false →
        st.cachedPage.values.length
          ≤ (drainAndFinish st rest oracle fevs).state.retrieveIndex)
    ∧ (if (drainAndFinish st rest oracle fevs).state.shouldPushCachedPage
          then 1 else 0)
        + (st.cachedPage.values.length
            - (drainAndFinish st rest oracle fevs).state.retrieveIndex)
      ≤ st.cachedPage.values.length - st.retrieveIndex
    ∧ ((drainAndFinish st rest oracle fevs).ended = true →
        st.cachedPage.nextPageToken = none
        ∧ (drainAndFinish st rest oracle fevs).events.getLast?
            = some Ev.pushEnd
        ∧ st.cachedPage.values.length
            ≤ (drainAndFinish st rest oracle fevs).state.retrieveIndex)
    ∧ (st.cachedPage.nextPageToken = none →
        st.cachedPage.values.length ≤ st.retrieveIndex →
        (drainAndFinish st rest oracle fevs).ended = true)
    ∧ ((drainAndFinish st rest oracle fevs).resume = true →
        fevs.all (fun e => !isRefused e) = true →
        (drainAndFinish st rest oracle fevs).events.all
          (fun e => !isRefused e) = true)
    ∧ (fevs.all (fun e => !isRefused e) = true →
        refusalTerminal (drainAndFinish st rest oracle fevs).events
          = true) := by
  obtain ⟨d1, d2, d3, d4, d5, d6, d7⟩ := drainOf_spec st oracle
  by_cases hcp : (drainOf st oracle).canPush = true
  · obtain ⟨hA, hB⟩ := d6 hcp
    rcases htok : st.cachedPage.nextPageToken with _ | tok
    · rw [drainAndFinish_ended st rest oracle fevs hcp htok]
      dsimp only
      refine ⟨rfl, rfl, rfl, rfl, rfl, d1, ?_, ?_, ?_, ?_, ?_, ?_, ?_, ?_,
        ?_⟩
      · rw [valuesOf_append, valuesOf_append]
        have : valuesOf [Ev.pushEnd] = [] := rfl
        rw [this, List.append_nil, List.append_assoc, d3]
      · rw [fetchesOf_append, fetchesOf_append]
        have : fetchesOf [Ev.pushEnd] = [] := rfl
        rw [this, d5, List.append_nil, List.append_nil]
      · rw [endsOf_append, endsOf_append, d4]
        simp [endsOf, List.countP_cons, isEnd]
      · intro _; exact hA
      · simp only [hflag]
        simp only [Bool.false_eq_true, if_false]
        omega
      · intro _
        exact ⟨rfl, List.getLast?_concat _, hA⟩
      · intro _ _; rfl
      · intro h; exact absurd h (by simp)
      · intro hfe
        refine refusalTerminal_append _ _ ?_ rfl
        simp only [List.all_append, Bool.and_eq_true]
        exact ⟨hfe, hB⟩
    · rw [drainAndFinish_resume st rest oracle fevs tok hcp htok]
      dsimp only
      refine ⟨rfl, rfl, rfl, rfl, rfl, d1, ?_, ?_, ?_, ?_, ?_, ?_, ?_, ?_,
        ?_⟩
      · rw [valuesOf_append, List.append_assoc, d3]
      · rw [fetchesOf_append, d5, List.append_nil]
      · rw [endsOf_append, d4]
        simp
      · intro _; exact hA
      · simp only [hflag]
        simp only [Bool.false_eq_true, if_false]
        omega
      · intro h; exact absurd h (by simp)
      · intro htok2
        exact absurd htok2 (by simp)
      · intro _ hfe
        simp only [List.all_append, Bool.and_eq_true]
        exact ⟨hfe, hB⟩
      · intro hfe
        refine refusalTerminal_of_all _ ?_
        simp only [List.all_append, Bool.and_eq_true]
        exact ⟨hfe, hB⟩
  · have hcp2 : (drainOf st oracle).canPush = false := by
      simpa using hcp
    obtain ⟨hA, hB⟩ := d7 hcp2
    rw [drainAndFinish_refused st rest oracle fevs hcp2]
    dsimp only
    refine ⟨rfl, rfl, rfl, rfl, rfl, d1, ?_, ?_, ?_, ?_, ?_, ?_, ?_, ?_, ?_⟩
    · rw [valuesOf_append, List.append_assoc, d3]
    · rw [fetchesOf_append, d5, List.append_nil]
    · rw [endsOf_append, d4]
      simp
    · intro hdec
      simp only [decide_eq_false_iff_not, Nat.not_lt] at hdec
      exact hdec
    · by_cases hlt : (drainOf st oracle).idx < st.cachedPage.values.length
      · simp [hlt]
        omega
      · simp [hlt]
        omega
    · intro h; exact absurd h (by simp)
    · intro htok hge
      exfalso
      omega
    · intro h; exact absurd h (by simp)
    · intro hfe
      exact refusalTerminal_append _ _ hfe hB

/-- Branch equation: the cached first page is still pending (line 99-100):
clear the flag and drain it, no fetch. -/
theorem pushPageValues_flagTrue (st : ResultStream) (rest : List FetchResult)
    (oracle : List Bool) (h : st.shouldPushCachedPage = true) :
    pushPageValues st rest oracle
      = drainAndFinish { st with shouldPushCachedPage := false } rest oracle
          [] := by
  simp [pushPageValues, h]

/-- Branch equation: flag clear, no continuation token — straight to the
drain (and, the buffer being exhausted, to `push(null)`). -/
theorem pushPageValues_noToken (st : ResultStream) (rest : List FetchResult)
    (oracle : List Bool) (h : st.shouldPushCachedPage = false)
    (htok : st.cachedPage.nextPageToken = none) :
    pushPageValues st rest oracle = drainAndFinish st rest oracle [] := by
  simp [pushPageValues, h, htok]

/-- Branch equation: flag clear and a token present — fetch the next page,
merge its reports, reset the index (lines 101-120), then drain. -/
theorem pushPageValues_fetch (st : ResultStream) (fr : FetchResult)
    (rest1 : List FetchResult) (oracle : List Bool) (tok : Nat)
    (h : st.shouldPushCachedPage = false)
    (htok : st.cachedPage.nextPageToken = some tok) :
    pushPageValues st (fr :: rest1) oracle
      = drainAndFinish
          { st with
            cachedPage := fr.page,
            ioUsage := accumulateReport st.ioUsage fr.consumedIOs,
            timingInformation :=
              accumulateReport st.timingInformation fr.timingInformation,
            retrieveIndex := 0 } rest1 oracle [.fetch tok] := by
  simp [pushPageValues, h, htok]

/-- Branch equation: flag clear, a token present, but the fetch fails —
`destroy` (lines 121-125). -/
theorem pushPageValues_fetchFail (st : ResultStream) (oracle : List Bool)
    (tok : Nat) (h : st.shouldPushCachedPage = false)
    (htok : st.cachedPage.nextPageToken = some tok) :
    pushPageValues st [] oracle
      = ⟨{ st with destroyed := true, isPushingData := false }, [], oracle,
          [], false, false⟩ := by
  simp [pushPageValues, h, htok]

theorem wfb_none {p : Page} {l : List FetchResult} (hwf : wfb p l = true)
    (htok : p.nextPageToken = none) : l = [] := by
  cases l with
  | nil => rfl
  | cons fr l => simp [wfb, htok] at hwf

theorem wfb_cons {p : Page} {fr : FetchResult} {l : List FetchResult}
    (hwf : wfb p (fr :: l) = true) :
    p.nextPageToken.isSome = true ∧ wfb fr.page l = true := by
  simpa [wfb] using hwf

/-- One push cycle preserves the machine invariant and the supply
well-formedness, transfers exactly the drained values and the fetched token
to the event log, accumulates the fetched page's reports, pushes the end
signal exactly when it ends — in which case nothing remains — and otherwise
strictly decreases the termination measure. -/
theorem cycle_spec (st : ResultStream) (rest : List FetchResult)
    (oracle : List Bool)
    (hwf : wfb st.cachedPage rest = true)
    (hinv : st.shouldPushCachedPage = false →
      st.cachedPage.values.length ≤ st.retrieveIndex)
    (hdz : st.destroyed = false) :
    (pushPageValues st rest oracle).state.destroyed = false
    ∧ ((pushPageValues st rest oracle).state.shouldPushCachedPage = false →
        (pushPageValues st rest oracle).state.cachedPage.values.length
          ≤ (pushPageValues st rest oracle).state.retrieveIndex)
    ∧ wfb (pushPageValues st rest oracle).state.cachedPage
        (pushPageValues st rest oracle).rest = true
    ∧ valuesOf (pushPageValues st rest oracle).events
        ++ pendingValues (pushPageValues st rest oracle).state
            (pushPageValues st rest oracle).rest
      = pendingValues st rest
    ∧ fetchesOf (pushPageValues st rest oracle).events
        ++ tokenChain (pushPageValues st rest oracle).state.cachedPage
            (pushPageValues st rest oracle).rest
      = tokenChain st.cachedPage rest
    ∧ ((pushPageValues st rest oracle).rest.map
          (fun fr => fr.consumedIOs)).foldl accumulateReport
          (pushPageValues st rest oracle).state.ioUsage
      = (rest.map (fun fr => fr.consumedIOs)).foldl accumulateReport
          st.ioUsage
    ∧ ((pushPageValues st rest oracle).rest.map
          (fun fr => fr.timingInformation)).foldl accumulateReport
          (pushPageValues st rest oracle).state.timingInformation
      = (rest.map (fun fr => fr.timingInformation)).foldl accumulateReport
          st.timingInformation
    ∧ endsOf (pushPageValues st rest oracle).events
        = (if (pushPageValues st rest oracle).ended then 1 else 0)
    ∧ ((pushPageValues st rest oracle).ended = true →
        (pushPageValues st rest oracle).events.getLast? = some Ev.pushEnd
        ∧ pendingValues (pushPageValues st rest oracle).state
            (pushPageValues st rest oracle).rest = []
        ∧ tokenChain (pushPageValues st rest oracle).state.cachedPage
            (pushPageValues st rest oracle).rest = []
        ∧ (pushPageValues st rest oracle).rest = [])
    ∧ ((pushPageValues st rest oracle).ended = false →
        cycleMeasure (pushPageValues st rest oracle).state
            (pushPageValues st rest oracle).rest
          < cycleMeasure st rest) := by
  by_cases hsp : st.shouldPushCachedPage = true
  · rw [pushPageValues_flagTrue st rest oracle hsp]
    obtain ⟨f1, f2, f3, f4, f5, f6, f7, f8, f9, f10, f11, f12, f13, f14,
      f15⟩ :=
      drainAndFinish_spec { st with shouldPushCachedPage := false } rest
        oracle [] rfl
    set out := drainAndFinish { st with shouldPushCachedPage := false } rest
      oracle [] with hout
    have g2 : out.state.cachedPage = st.cachedPage := f2
    have g3 : out.state.ioUsage = st.ioUsage := f3
    have g4 : out.state.timingInformation = st.timingInformation := f4
    have g5 : out.state.destroyed = st.destroyed := f5
    have g7 : valuesOf out.events
        ++ st.cachedPage.values.drop out.state.retrieveIndex
        = st.cachedPage.values.drop st.retrieveIndex := f7
    have g8 : fetchesOf out.events = [] := f8
    have g9 : endsOf out.events = (if out.ended then 1 else 0) := by
      simpa [endsOf] using f9
    have g10 : out.state.shouldPushCachedPage = false →
        st.cachedPage.values.length ≤ out.state.retrieveIndex := f10
    have g11 : (if out.state.shouldPushCachedPage then 1 else 0)
        + (st.cachedPage.values.length - out.state.retrieveIndex)
        ≤ st.cachedPage.values.length - st.retrieveIndex := f11
    have g12 : out.ended = true → st.cachedPage.nextPageToken = none
        ∧ out.events.getLast? = some Ev.pushEnd
        ∧ st.cachedPage.values.length ≤ out.state.retrieveIndex := f12
    refine ⟨?_, ?_, ?_, ?_, ?_, ?_, ?_, ?_, ?_, ?_⟩
    · rw [g5]; exact hdz
    · intro hf; rw [g2]; exact g10 hf
    · rw [g2, f1]; exact hwf
    · unfold pendingValues
      rw [f1, g2, ← List.append_assoc, g7]
    · rw [g8, f1, g2]
      exact List.nil_append _
    · rw [f1, g3]
    · rw [f1, g4]
    · exact g9
    · intro hend
      obtain ⟨htokn, hlast, hlenn⟩ := g12 hend
      have hrest : rest = [] := wfb_none hwf htokn
      refine ⟨hlast, ?_, ?_, ?_⟩
      · unfold pendingValues
        rw [g2, f1, hrest]
        simp [List.drop_eq_nil_of_le hlenn]
      · rw [g2, f1, hrest]
        simp [tokenChain]
      · rw [f1, hrest]
    · intro hnend
      unfold cycleMeasure
      rw [f1, g2]
      rcases hb : out.state.shouldPushCachedPage <;>
        simp [hb, hsp] at g11 ⊢ <;> omega
  · have hsp2 : st.shouldPushCachedPage = false := by simpa using hsp
    have hlen0 : st.cachedPage.values.length ≤ st.retrieveIndex := hinv hsp2
    have hdropnil : st.cachedPage.values.drop st.retrieveIndex = [] :=
      List.drop_eq_nil_of_le hlen0
    rcases htok : st.cachedPage.nextPageToken with _ | tok
    · rw [pushPageValues_noToken st rest oracle hsp2 htok]
      obtain ⟨f1, f2, f3, f4, f5, f6, f7, f8, f9, f10, f11, f12, f13, f14,
        f15⟩ := drainAndFinish_spec st rest oracle [] hsp2
      set out := drainAndFinish st rest oracle [] with hout
      have g7 : valuesOf out.events
          ++ st.cachedPage.values.drop out.state.retrieveIndex
          = st.cachedPage.values.drop st.retrieveIndex := f7
      have g8 : fetchesOf out.events = [] := f8
      have g9 : endsOf out.events = (if out.ended then 1 else 0) := by
        simpa [endsOf] using f9
      have hended : out.ended = true := f13 htok hlen0
      have g12 : out.ended = true → st.cachedPage.nextPageToken = none
          ∧ out.events.getLast? = some Ev.pushEnd
          ∧ st.cachedPage.values.length ≤ out.state.retrieveIndex := f12
      refine ⟨?_, ?_, ?_, ?_, ?_, ?_, ?_, ?_, ?_, ?_⟩
      · rw [f5]; exact hdz
      · intro hf; rw [f2]; exact f10 hf
      · rw [f2, f1]; exact hwf
      · unfold pendingValues
        rw [f1, f2, ← List.append_assoc, g7]
      · rw [g8, f1, f2]
        exact List.nil_append _
      · rw [f1, f3]
      · rw [f1, f4]
      · exact g9
      · intro hend
        obtain ⟨htokn, hlast, hlenn⟩ := g12 hend
        have hrest : rest = [] := wfb_none hwf htokn
        refine ⟨hlast, ?_, ?_, ?_⟩
        · unfold pendingValues
          rw [f2, f1, hrest]
          simp [List.drop_eq_nil_of_le hlenn]
        · rw [f2, f1, hrest]
          simp [tokenChain]
        · rw [f1, hrest]
      · intro hnend
        rw [hended] at hnend
        exact absurd hnend (by simp)
    · rcases rest with _ | ⟨fr, rest1⟩
      · exfalso
        simp [wfb, htok] at hwf
      · obtain ⟨hbtok, hwf2⟩ := wfb_cons hwf
        rw [pushPageValues_fetch st fr rest1 oracle tok hsp2 htok]
        obtain ⟨f1, f2, f3, f4, f5, f6, f7, f8, f9, f10, f11, f12, f13, f14,
          f15⟩ :=
          drainAndFinish_spec
            { st with
              cachedPage := fr.page,
              ioUsage := accumulateReport st.ioUsage fr.consumedIOs,
              timingInformation :=
                accumulateReport st.timingInformation fr.timingInformation,
              retrieveIndex := 0 } rest1 oracle [.fetch tok] hsp2
        set out := drainAndFinish
            { st with
              cachedPage := fr.page,
              ioUsage := accumulateReport st.ioUsage fr.consumedIOs,
              timingInformation :=
                accumulateReport st.timingInformation fr.timingInformation,
              retrieveIndex := 0 } rest1 oracle [.fetch tok] with hout
        have g2 : out.state.cachedPage = fr.page := f2
        have g3 : out.state.ioUsage
            = accumulateReport st.ioUsage fr.consumedIOs := f3
        have g4 : out.state.timingInformation
            = accumulateReport st.timingInformation fr.timingInformation :=
          f4
        have g5 : out.state.destroyed = st.destroyed := f5
        have g7 : valuesOf out.events
            ++ fr.page.values.drop out.state.retrieveIndex
            = fr.page.values := f7
        have g8 : fetchesOf out.events = [tok] := f8
        have g9 : endsOf out.events = (if out.ended then 1 else 0) := by
          simpa [endsOf, List.countP_cons, isEnd] using f9
        have g10 : out.state.shouldPushCachedPage = false →
            fr.page.values.length ≤ out.state.retrieveIndex := f10
        have g11 : (if out.state.shouldPushCachedPage then 1 else 0)
            + (fr.page.values.length - out.state.retrieveIndex)
            ≤ fr.page.values.length := f11
        have g12 : out.ended = true → fr.page.nextPageToken = none
            ∧ out.events.getLast? = some Ev.pushEnd
            ∧ fr.page.values.length ≤ out.state.retrieveIndex := f12
        refine ⟨?_, ?_, ?_, ?_, ?_, ?_, ?_, ?_, ?_, ?_⟩
        · rw [g5]; exact hdz
        · intro hf; rw [g2]; exact g10 hf
        · rw [g2, f1]; exact hwf2
        · unfold pendingValues
          rw [f1, g2, ← List.append_assoc, g7, hdropnil]
          simp
        · rw [g8, f1, g2]
          simp [tokenChain, htok]
        · rw [f1, g3]
          simp
        · rw [f1, g4]
          simp
        · exact g9
        · intro hend
          obtain ⟨htokn, hlast, hlenn⟩ := g12 hend
          have hrest1 : rest1 = [] := wfb_none hwf2 htokn
          refine ⟨hlast, ?_, ?_, ?_⟩
          · unfold pendingValues
            rw [g2, f1, hrest1]
            simp [List.drop_eq_nil_of_le hlenn]
          · rw [g2, f1, hrest1]
            simp [tokenChain]
          · rw [f1, hrest1]
        · intro hnend
          unfold cycleMeasure
          rw [f1, g2]
          have hsum : ((fr :: rest1).map
              (fun fr2 => fr2.page.values.length + 1)).sum
              = (fr.page.values.length + 1)
                + ((rest1.map
                    (fun fr2 => fr2.page.values.length + 1)).sum) := by
            simp
          rw [hsum]
          rcases hb : out.state.shouldPushCachedPage <;>
            simp [hb, hsp2] at g11 ⊢ <;> omega

/-- Step equation: the run stops once `push(null)` happened or the stream
was destroyed. -/
theorem runStream_succ_ended (fuel : Nat) (st : ResultStream)
    (rest : List FetchResult) (oracle : List Bool)
    (h : (pushPageValues st rest oracle).ended = true
      ∨ (pushPageValues st rest oracle).state.destroyed = true) :
    runStream (fuel + 1) st rest oracle
      = ((pushPageValues st rest oracle).events,
          (pushPageValues st rest oracle).state) := by
  unfold runStream
  rcases h with h | h <;> simp [h]

/-- Step equation: otherwise the next cycle runs (triggered by the
self-resume at line 147 or by the consumer reading again). -/
theorem runStream_succ_cont (fuel : Nat) (st : ResultStream)
    (rest : List FetchResult) (oracle : List Bool)
    (h1 : (pushPageValues st rest oracle).ended = false)
    (h2 : (pushPageValues st rest oracle).state.destroyed = false) :
    runStream (fuel + 1) st rest oracle
      = ((pushPageValues st rest oracle).events
          ++ (runStream fuel (pushPageValues st rest oracle).state
              (pushPageValues st rest oracle).rest
              (pushPageValues st rest oracle).oracle).1,
          (runStream fuel (pushPageValues st rest oracle).state
            (pushPageValues st rest oracle).rest
            (pushPageValues st rest oracle).oracle).2) := by
  simp only [runStream]
  simp [h1, h2]

/-- Full consumption of a well-formed stream, from any reachable state:
the events are exactly the pending values in order, one fetch per remaining
continuation token in order, and a single terminal `push(null)` as the very
last event; the final accumulators fold every remaining page report in. -/
theorem runStream_spec (fuel : Nat) :
    ∀ (st : ResultStream) (rest : List FetchResult) (oracle : List Bool),
      wfb st.cachedPage rest = true →
      (st.shouldPushCachedPage = false →
        st.cachedPage.values.length ≤ st.retrieveIndex) →
      st.destroyed = false →
      cycleMeasure st rest ≤ fuel →
      valuesOf (runStream fuel st rest oracle).1 = pendingValues st rest
      ∧ fetchesOf (runStream fuel st rest oracle).1
          = tokenChain st.cachedPage rest
      ∧ endsOf (runStream fuel st rest oracle).1 = 1
      ∧ (runStream fuel st rest oracle).1.getLast? = some Ev.pushEnd
      ∧ (runStream fuel st rest oracle).2.ioUsage
          = (rest.map (fun fr => fr.consumedIOs)).foldl accumulateReport
              st.ioUsage
      ∧ (runStream fuel st rest oracle).2.timingInformation
          = (rest.map (fun fr => fr.timingInformation)).foldl
              accumulateReport st.timingInformation := by
  induction fuel with
  | zero =>
    intro st rest oracle _ _ _ hfuel
    exfalso
    unfold cycleMeasure at hfuel
    omega
  | succ fuel ih =>
    intro st rest oracle hwf hinvf hdz hfuel
    obtain ⟨c1, c2, c3, c4, c5, c6, c7, c8, c9, c10⟩ :=
      cycle_spec st rest oracle hwf hinvf hdz
    by_cases hend : (pushPageValues st rest oracle).ended = true
    · rw [runStream_succ_ended fuel st rest oracle (Or.inl hend)]
      obtain ⟨hlast, hpend, hchain, hrest⟩ := c9 hend
      refine ⟨?_, ?_, ?_, hlast, ?_, ?_⟩
      · rw [hpend, List.append_nil] at c4
        exact c4
      · rw [hchain, List.append_nil] at c5
        exact c5
      · rw [c8, hend]
        rfl
      · rw [hrest] at c6
        simpa using c6
      · rw [hrest] at c7
        simpa using c7
    · have hendF : (pushPageValues st rest oracle).ended = false := by
        simpa using hend
      rw [runStream_succ_cont fuel st rest oracle hendF c1]
      have hm : cycleMeasure (pushPageValues st rest oracle).state
          (pushPageValues st rest oracle).rest ≤ fuel := by
        have := c10 hendF
        omega
      obtain ⟨i1, i2, i3, i4, i5, i6⟩ :=
        ih (pushPageValues st rest oracle).state
          (pushPageValues st rest oracle).rest
          (pushPageValues st rest oracle).oracle c3 c2 c1 hm
      refine ⟨?_, ?_, ?_, ?_, ?_, ?_⟩
      · rw [valuesOf_append, i1]
        exact c4
      · rw [fetchesOf_append, i2]
        exact c5
      · rw [endsOf_append, i3, c8, hendF]
        simp
      · rw [List.getLast?_append, i4]
        rfl
      · rw [i5]
        exact c6
      · rw [i6]
        exact c7

/-- Within one push cycle, a refused push is always the final event, and a
cycle that self-resumes had no refusal at all.  (No well-formedness of the
page supply is needed.) -/
theorem cycle_refusal (st : ResultStream) (rest : List FetchResult)
    (oracle : List Bool) :
    ((pushPageValues st rest oracle).resume = true →
      (pushPageValues st rest oracle).events.all
        (fun e => !isRefused e) = true)
    ∧ refusalTerminal (pushPageValues st rest oracle).events = true := by
  by_cases hsp : st.shouldPushCachedPage = true
  · rw [pushPageValues_flagTrue st rest oracle hsp]
    obtain ⟨_, _, _, _, _, _, _, _, _, _, _, _, _, f14, f15⟩ :=
      drainAndFinish_spec { st with shouldPushCachedPage := false } rest
        oracle [] rfl
    exact ⟨fun hr => f14 hr rfl, f15 rfl⟩
  · have hsp2 : st.shouldPushCachedPage = false := by simpa using hsp
    rcases htok : st.cachedPage.nextPageToken with _ | tok
    · rw [pushPageValues_noToken st rest oracle hsp2 htok]
      obtain ⟨_, _, _, _, _, _, _, _, _, _, _, _, _, f14, f15⟩ :=
        drainAndFinish_spec st rest oracle [] hsp2
      exact ⟨fun hr => f14 hr rfl, f15 rfl⟩
    · rcases rest with _ | ⟨fr, rest1⟩
      · rw [pushPageValues_fetchFail st oracle tok hsp2 htok]
        exact ⟨fun _ => rfl, rfl⟩
      · rw [pushPageValues_fetch st fr rest1 oracle tok hsp2 htok]
        obtain ⟨_, _, _, _, _, _, _, _, _, _, _, _, _, f14, f15⟩ :=
          drainAndFinish_spec
            { st with
              cachedPage := fr.page,
              ioUsage := accumulateReport st.ioUsage fr.consumedIOs,
              timingInformation :=
                accumulateReport st.timingInformation fr.timingInformation,
              retrieveIndex := 0 } rest1 oracle [.fetch tok] hsp2
        exact ⟨fun hr => f14 hr rfl, f15 rfl⟩

/-- A push cycle emits the end signal only when the page buffered at that
moment carries no continuation token (lines 138-141). -/
theorem cycle_endsToken (st : ResultStream) (rest : List FetchResult)
    (oracle : List Bool) :
    endsOf (pushPageValues st rest oracle).events ≠ 0 →
    (pushPageValues st rest oracle).state.cachedPage.nextPageToken
      = none := by
  by_cases hsp : st.shouldPushCachedPage = true
  · rw [pushPageValues_flagTrue st rest oracle hsp]
    obtain ⟨_, f2, _, _, _, _, _, _, f9, _, _, f12, _, _, _⟩ :=
      drainAndFinish_spec { st with shouldPushCachedPage := false } rest
        oracle [] rfl
    intro hne
    rcases hb : (drainAndFinish { st with shouldPushCachedPage := false }
        rest oracle []).ended
    · exfalso
      apply hne
      rw [hb] at f9
      simpa [endsOf] using f9
    · obtain ⟨htokn, _, _⟩ := f12 hb
      rw [f2]
      exact htokn
  · have hsp2 : st.shouldPushCachedPage = false := by simpa using hsp
    rcases htok : st.cachedPage.nextPageToken with _ | tok
    · rw [pushPageValues_noToken st rest oracle hsp2 htok]
      obtain ⟨_, f2, _, _, _, _, _, _, f9, _, _, f12, _, _, _⟩ :=
        drainAndFinish_spec st rest oracle [] hsp2
      intro hne
      rcases hb : (drainAndFinish st rest oracle []).ended
      · exfalso
        apply hne
        rw [hb] at f9
        simpa [endsOf] using f9
      · obtain ⟨htokn, _, _⟩ := f12 hb
        rw [f2]
        exact htokn
    · rcases rest with _ | ⟨fr, rest1⟩
      · rw [pushPageValues_fetchFail st oracle tok hsp2 htok]
        intro hne
        exact absurd rfl hne
      · rw [pushPageValues_fetch st fr rest1 oracle tok hsp2 htok]
        obtain ⟨_, f2, _, _, _, _, _, _, f9, _, _, f12, _, _, _⟩ :=
          drainAndFinish_spec
            { st with
              cachedPage := fr.page,
              ioUsage := accumulateReport st.ioUsage fr.consumedIOs,
              timingInformation :=
                accumulateReport st.timingInformation fr.timingInformation,
              retrieveIndex := 0 } rest1 oracle [.fetch tok] hsp2
        intro hne
        rcases hb : (drainAndFinish
            { st with
              cachedPage := fr.page,
              ioUsage := accumulateReport st.ioUsage fr.consumedIOs,
              timingInformation :=
                accumulateReport st.timingInformation fr.timingInformation,
              retrieveIndex := 0 } rest1 oracle [.fetch tok]).ended
        · exfalso
          apply hne
          rw [hb] at f9
          simpa [endsOf, List.countP_cons, isEnd] using f9
        · obtain ⟨htokn, _, _⟩ := f12 hb
          rw [f2]
          exact htokn

/-- Step equation for the self-resuming read chain. -/
theorem readChain_succ_resume (fuel : Nat) (st : ResultStream)
    (rest : List FetchResult) (oracle : List Bool)
    (h : (pushPageValues st rest oracle).resume = true) :
    readChain (fuel + 1) st rest oracle
      = ⟨(readChain fuel (pushPageValues st rest oracle).state
            (pushPageValues st rest oracle).rest
            (pushPageValues st rest oracle).oracle).state,
          (readChain fuel (pushPageValues st rest oracle).state
            (pushPageValues st rest oracle).rest
            (pushPageValues st rest oracle).oracle).rest,
          (readChain fuel (pushPageValues st rest oracle).state
            (pushPageValues st rest oracle).rest
            (pushPageValues st rest oracle).oracle).oracle,
          (pushPageValues st rest oracle).events
            ++ (readChain fuel (pushPageValues st rest oracle).state
                (pushPageValues st rest oracle).rest
                (pushPageValues st rest oracle).oracle).events,
          (readChain fuel (pushPageValues st rest oracle).state
            (pushPageValues st rest oracle).rest
            (pushPageValues st rest oracle).oracle).resume,
          (pushPageValues st rest oracle).ended
            || (readChain fuel (pushPageValues st rest oracle).state
                (pushPageValues st rest oracle).rest
                (pushPageValues st rest oracle).oracle).ended⟩ := by
  simp only [readChain]
  simp [h]

/-- Step equation: a cycle that does not self-resume ends the chain. -/
theorem readChain_succ_stop (fuel : Nat) (st : ResultStream)
    (rest : List FetchResult) (oracle : List Bool)
    (h : (pushPageValues st rest oracle).resume = false) :
    readChain (fuel + 1) st rest oracle = pushPageValues st rest oracle := by
  unfold readChain
  simp [h]

/-- In the whole event chain of one `_read` request, a refused push is
always the final event: nothing — in particular no further page fetch — is
attempted after the consumer signals backpressure, until the consumer reads
again. -/
theorem readChain_refusalTerminal (fuel : Nat) :
    ∀ (st : ResultStream) (rest : List FetchResult) (oracle : List Bool),
      refusalTerminal (readChain fuel st rest oracle).events = true := by
  induction fuel with
  | zero => intro st rest oracle; rfl
  | succ fuel ih =>
    intro st rest oracle
    obtain ⟨hra, hrt⟩ := cycle_refusal st rest oracle
    by_cases hr : (pushPageValues st rest oracle).resume = true
    · rw [readChain_succ_resume fuel st rest oracle hr]
      exact refusalTerminal_append _ _ (hra hr)
        (ih (pushPageValues st rest oracle).state
          (pushPageValues st rest oracle).rest
          (pushPageValues st rest oracle).oracle)
    · have hr2 : (pushPageValues st rest oracle).resume = false := by
        simpa using hr
      rw [readChain_succ_stop fuel st rest oracle hr2]
      exact hrt

/-- The accumulation of the code (initialize on first non-null report, then
add with missing-as-zero) computes the spec-side total. -/
theorem foldl_accumulateReport (reports : List (Option Int)) :
    ∀ (first : Option Int),
      reports.foldl accumulateReport first = specTotal (first :: reports) := by
  induction reports with
  | nil =>
    intro first
    rcases first with _ | a <;> simp [specTotal, accumulateReport]
  | cons r rs ih =>
    intro first
    rw [List.foldl_cons, ih (accumulateReport first r)]
    rcases first with _ | a
    · rcases r with _ | b
      · by_cases han : rs.all (fun x => x.isNone) = true <;>
          simp [specTotal, accumulateReport, han]
      · simp [specTotal, accumulateReport]
    · simp [specTotal, accumulateReport, add_assoc]

/-- C2: over any well-formed page sequence (tokens chaining the supplied
pages, the last page tokenless), a fully consumed stream pushes every value
of every page exactly once, in page-then-index order, issues exactly one
`fetchPage` call per continuation token, in order, and pushes the terminal
`null` exactly once, as the last event; and in general any cycle that pushes
`null` does so only when the page buffered at that moment carries no
continuation token. -/
theorem resultStream_pagination (r : ExecuteStatementResult)
    (rest : List FetchResult) (oracle : List Bool) (fuel : Nat)
    (hwf : wfb r.firstPage rest = true)
    (hfuel : cycleMeasure (mkResultStream r) rest ≤ fuel) :
    valuesOf (runStream fuel (mkResultStream r) rest oracle).1
      = r.firstPage.values ++ (rest.map (fun fr => fr.page.values)).flatten
    ∧ fetchesOf (runStream fuel (mkResultStream r) rest oracle).1
      = tokenChain r.firstPage rest
    ∧ endsOf (runStream fuel (mkResultStream r) rest oracle).1 = 1
    ∧ (runStream fuel (mkResultStream r) rest oracle).1.getLast?
      = some Ev.pushEnd
    ∧ (∀ (st2 : ResultStream) (rest2 : List FetchResult)
        (oracle2 : List Bool),
        endsOf (pushPageValues st2 rest2 oracle2).events ≠ 0 →
        (pushPageValues st2 rest2 oracle2).state.cachedPage.nextPageToken
          = none) := by
  have hw : wfb (mkResultStream r).cachedPage rest = true := hwf
  obtain ⟨i1, i2, i3, i4, _, _⟩ :=
    runStream_spec fuel (mkResultStream r) rest oracle hw
      (fun h => by simp [mkResultStream] at h) rfl hfuel
  refine ⟨?_, ?_, i3, i4, cycle_endsToken⟩
  · rw [i1]
    simp [pendingValues, mkResultStream]
  · rw [i2]
    rfl

/-- Witness for C2: the spec's concrete two-page scenario — page 1 is
`{values:[1,2], next:"2"}`, page 2 is `{values:[3], next:null}` — yields
`1, 2, 3`, then the end signal, with exactly one fetch, using token `2`. -/
theorem resultStream_pagination_witness :
    valuesOf (runStream 6 (mkResultStream ⟨⟨[1, 2], some 2⟩, none, none⟩)
        [⟨⟨[3], none⟩, none, none⟩] []).1 = [1, 2, 3]
    ∧ fetchesOf (runStream 6 (mkResultStream ⟨⟨[1, 2], some 2⟩, none, none⟩)
        [⟨⟨[3], none⟩, none, none⟩] []).1 = [2]
    ∧ endsOf (runStream 6 (mkResultStream ⟨⟨[1, 2], some 2⟩, none, none⟩)
        [⟨⟨[3], none⟩, none, none⟩] []).1 = 1
    ∧ (runStream 6 (mkResultStream ⟨⟨[1, 2], some 2⟩, none, none⟩)
        [⟨⟨[3], none⟩, none, none⟩] []).1.getLast? = some Ev.pushEnd := by
  have h := resultStream_pagination ⟨⟨[1, 2], some 2⟩, none, none⟩
    [⟨⟨[3], none⟩, none, none⟩] [] 6 (by decide) (by decide)
  exact ⟨h.1.trans rfl, h.2.1.trans rfl, h.2.2.1, h.2.2.2.1⟩

/-- C5: after full consumption of a well-formed stream, the read-IO total
and the processing-time total each equal the exact arithmetic sum of the
per-page reports across the execute result and every fetched page, missing
reports contributing zero; an accumulator is unset (`none`) exactly when no
page ever reported, i.e. it starts unset, is initialized by the first
non-null report, and subsequent reports are added without resetting it. -/
theorem resultStream_stats (r : ExecuteStatementResult)
    (rest : List FetchResult) (oracle : List Bool) (fuel : Nat)
    (hwf : wfb r.firstPage rest = true)
    (hfuel : cycleMeasure (mkResultStream r) rest ≤ fuel) :
    (runStream fuel (mkResultStream r) rest oracle).2.ioUsage
      = specTotal (r.consumedIOs :: rest.map (fun fr => fr.consumedIOs))
    ∧ (runStream fuel (mkResultStream r) rest oracle).2.timingInformation
      = specTotal (r.timingInformation
          :: rest.map (fun fr => fr.timingInformation)) := by
  have hw : wfb (mkResultStream r).cachedPage rest = true := hwf
  obtain ⟨_, _, _, _, i5, i6⟩ :=
    runStream_spec fuel (mkResultStream r) rest oracle hw
      (fun h => by simp [mkResultStream] at h) rfl hfuel
  constructor
  · rw [i5]
    exact foldl_accumulateReport _ r.consumedIOs
  · rw [i6]
    exact foldl_accumulateReport _ r.timingInformation

/-- Witness for C5: first page reports 5 read IOs and no timing; the fetched
page reports 7 read IOs and 4 ms — totals `some 12` and `some 4`. -/
theorem resultStream_stats_witness :
    (runStream 6 (mkResultStream ⟨⟨[1, 2], some 2⟩, some 5, none⟩)
        [⟨⟨[3], none⟩, some 7, some 4⟩] []).2.ioUsage = some 12
    ∧ (runStream 6 (mkResultStream ⟨⟨[1, 2], some 2⟩, some 5, none⟩)
        [⟨⟨[3], none⟩, some 7, some 4⟩] []).2.timingInformation
      = some 4 := by
  have h := resultStream_stats ⟨⟨[1, 2], some 2⟩, some 5, none⟩
    [⟨⟨[3], none⟩, some 7, some 4⟩] [] 6 (by decide) (by decide)
  exact ⟨h.1.trans (by decide), h.2.trans (by decide)⟩

/-- C6: a `_read` request arriving while a push cycle is in flight
(`_isPushingData` set) is ignored — no event, no state change; and within
the chain of cycles triggered by one `_read` request, a refused push is
always the final event, so after the consumer signals backpressure no
further page fetch (and no further push) is attempted until the consumer
issues another read request. -/
theorem resultStream_single_flight :
    (∀ (fuel : Nat) (st : ResultStream) (rest : List FetchResult)
        (oracle : List Bool), st.isPushingData = true →
      read fuel st rest oracle = ⟨st, rest, oracle, [], false, false⟩)
    ∧ (∀ (fuel : Nat) (st : ResultStream) (rest : List FetchResult)
        (oracle : List Bool),
      refusalTerminal (read fuel st rest oracle).events = true) := by
  constructor
  · intro fuel st rest oracle h
    simp [read, h]
  · intro fuel st rest oracle
    by_cases h : st.isPushingData = true
    · simp [read, h, refusalTerminal]
    · have h2 : st.isPushingData = false := by simpa using h
      simp only [read, h2]
      simp only [Bool.false_eq_true, if_false]
      exact readChain_refusalTerminal fuel _ rest oracle

/-- Witness for C6: a read on a busy stream is a no-op, and a
backpressured read chain (consumer refuses the first push) has its refusal
as the final event. -/
theorem resultStream_single_flight_witness :
    read 5 ⟨⟨[1], none⟩, true, 0, true, none, none, false⟩ [] []
      = ⟨⟨⟨[1], none⟩, true, 0, true, none, none, false⟩, [], [], [], false,
          false⟩
    ∧ refusalTerminal (read 5
        (mkResultStream ⟨⟨[1, 2], some 2⟩, none, none⟩)
        [⟨⟨[3], none⟩, none, none⟩] [false]).events = true := by
  have h := resultStream_single_flight
  exact ⟨h.1 5 ⟨⟨[1], none⟩, true, 0, true, none, none, false⟩ [] [] rfl,
    h.2 5 (mkResultStream ⟨⟨[1, 2], some 2⟩, none, none⟩)
      [⟨⟨[3], none⟩, none, none⟩] [false]⟩

end QldbModel
